import Mathlib

/-!
Verification of the context accumulation / pruning engine and the chat
history archive of the `doug` editor-assistant repository.

The definitions below are a shallow embedding of the TypeScript sources:

* `src/src/services/contextService.ts` — the `ContextService` class, embedded
  as explicit state passing over `ContextState`.  JavaScript strings become
  `List Char`; `Date.now()` and `crypto.randomUUID()` are environment inputs
  and become explicit parameters of `addContext`; the host key-value storage
  (`globalState.update / get` under the fixed key `context`) becomes the
  `globalState : Option (List ContextItem)` field.
* `src/src/types/openRouter.ts` — `truncateWithEllipsis`,
  `generateTitleFromMessages` and `ChatHistoryService.getChats`.  The
  archive's backing directory is a list of `(filename, parse result)` pairs:
  `none` stands for a file whose read or JSON parse throws.

`Array.prototype.sort` with a numeric comparator is a stable sort
(ECMAScript 2019); it is embedded as `List.mergeSort`, which is stable in the
same sense (`List.sublist_mergeSort`).
-/

/-- Message role, from the union type in `src/src/types/openRouter.ts`. -/
inductive Role where
  | user
  | assistant
  | system
deriving DecidableEq, Repr

/-- `OpenRouterChatMessage` from `src/src/types/openRouter.ts`; the string
content is embedded as a list of characters. -/
structure OpenRouterChatMessage where
  role : Role
  content : List Char
deriving DecidableEq, Repr

/-- `ContextSource` enum from `src/src/types/extension.ts`. -/
inductive ContextSource where
  | file
  | selection
  | manual
  | conversation
deriving DecidableEq, Repr

/-- `ContextItem` from `src/src/types/extension.ts`.  `relevance` and
`timestamp` are JavaScript numbers used only through comparison and are
embedded as integers. -/
structure ContextItem where
  id : String
  source : ContextSource
  content : List Char
  relevance : Int
  timestamp : Int
  path : Option String
deriving DecidableEq, Repr

/-- The mutable state of a `ContextService` instance: the in-memory
`this.context` array plus the host storage slot under the key `context`. -/
structure ContextState where
  context : List ContextItem
  globalState : Option (List ContextItem)
deriving DecidableEq, Repr

/-- `this.context.sort((a, b) => b.relevance - a.relevance)`: stable sort,
highest relevance first. -/
def sortDescRelevance (l : List ContextItem) : List ContextItem :=
  l.mergeSort (fun a b => decide (b.relevance ≤ a.relevance))

/-- `this.context.sort((a, b) => a.timestamp - b.timestamp)`: stable sort,
oldest first. -/
def sortAscTimestamp (l : List ContextItem) : List ContextItem :=
  l.mergeSort (fun a b => decide (a.timestamp ≤ b.timestamp))

/-- `ContextService.getContext`: returns `[...this.context]`, a defensive
copy of the array in its current internal order. -/
def getContext (s : ContextState) : List ContextItem :=
  s.context

/-- `ContextService.saveContext`: `globalState.update('context', this.context)`. -/
def saveContext (s : ContextState) : ContextState :=
  { s with globalState := some s.context }

/-- `ContextService.loadContext`: reads the saved array if present, otherwise
the field keeps its initial value `[]`. -/
def loadContext (savedContext : Option (List ContextItem)) : List ContextItem :=
  match savedContext with
  | some l => l
  | none => []

/-- The `ContextService` constructor: starts with `context = []`, then runs
`loadContext()` against the host storage content. -/
def newContextService (savedContext : Option (List ContextItem)) : ContextState :=
  { context := loadContext savedContext, globalState := savedContext }

/-- `ContextService.pruneContextIfNeeded`.  The configured
`contextWindowSize` is read by the source but never used; the ceiling is the
literal `20`.  `slice(-20)` keeps the last 20 elements. -/
def pruneContextIfNeeded (context : List ContextItem) : List ContextItem :=
  if context.length > 20 then
    let sorted := sortAscTimestamp context
    let kept := sorted.drop (sorted.length - 20)
    sortDescRelevance kept
  else context

/-- `ContextService.addContext`: build the new item from the environment
inputs (`crypto.randomUUID()`, `Date.now()`) and the options, push it, prune,
persist, return it. -/
def addContext (id : String) (timestamp : Int) (source : ContextSource)
    (content : List Char) (relevance : Int) (path : Option String)
    (s : ContextState) : ContextItem × ContextState :=
  let newItem : ContextItem :=
    { id := id, source := source, content := content,
      relevance := relevance, timestamp := timestamp, path := path }
  let pushed := s.context ++ [newItem]
  let pruned := pruneContextIfNeeded pushed
  (newItem, saveContext { s with context := pruned })

/-- `ContextService.addContextFromFile`: the file content and path come from
the external document read. -/
def addContextFromFile (id : String) (timestamp : Int) (content : List Char)
    (fsPath : String) (relevance : Int := 80) (s : ContextState) :
    ContextItem × ContextState :=
  addContext id timestamp ContextSource.file content relevance (some fsPath) s

/-- The editor handle seen by `addContextFromSelection`: `selection` is
`none` when `editor.selection` is falsy, and otherwise carries the selected
text; an empty range selects the empty text. -/
structure TextEditor where
  selection : Option (List Char)
  fsPath : String
deriving DecidableEq, Repr

/-- `ContextService.addContextFromSelection`: returns `null` without touching
any state when the selection is absent or empty. -/
def addContextFromSelection (id : String) (timestamp : Int)
    (editor : TextEditor) (relevance : Int := 90) (s : ContextState) :
    Option ContextItem × ContextState :=
  match editor.selection with
  | none => (none, s)
  | some sel =>
    if sel.isEmpty then (none, s)
    else
      let r := addContext id timestamp ContextSource.selection sel relevance
        (some editor.fsPath) s
      (some r.1, r.2)

/-- The characters of a role, as interpolated by `${m.role}`. -/
def roleChars : Role → List Char
  | Role.user => "user".toList
  | Role.assistant => "assistant".toList
  | Role.system => "system".toList

/-- `ContextService.addContextFromMessages`: flattens the turns to
`role: content` lines joined by blank lines. -/
def addContextFromMessages (id : String) (timestamp : Int)
    (messages : List OpenRouterChatMessage) (relevance : Int := 85)
    (s : ContextState) : ContextItem × ContextState :=
  let content := List.intercalate "\n\n".toList
    (messages.map (fun m => roleChars m.role ++ ": ".toList ++ m.content))
  addContext id timestamp ContextSource.conversation content relevance
    (some "chat-history") s

/-- `ContextService.addManualContext`. -/
def addManualContext (id : String) (timestamp : Int) (content : List Char)
    (relevance : Int := 75) (s : ContextState) : ContextItem × ContextState :=
  addContext id timestamp ContextSource.manual content relevance
    (some "manual-input") s

/-- `ContextService.removeContext`: filter by id, persist only when the
length changed. -/
def removeContext (id : String) (s : ContextState) : Bool × ContextState :=
  let initialLength := s.context.length
  let filtered := s.context.filter (fun item => decide (item.id ≠ id))
  let s1 := { s with context := filtered }
  if filtered.length ≠ initialLength then (true, saveContext s1)
  else (false, s1)

/-- `ContextService.clearContext`. -/
def clearContext (s : ContextState) : ContextState :=
  saveContext { s with context := [] }

/-- The enum value text of a `ContextSource`, as interpolated by
`${item.source}`. -/
def sourceChars : ContextSource → List Char
  | ContextSource.file => "file".toList
  | ContextSource.selection => "selection".toList
  | ContextSource.manual => "manual".toList
  | ContextSource.conversation => "conversation".toList

/-- One delimited block of the synthetic system message, for one item. -/
def contextBlock (item : ContextItem) : List Char :=
  let source := match item.path with
    | some p => sourceChars item.source ++ " (".toList ++ p.toList ++ ")".toList
    | none => sourceChars item.source
  "--- BEGIN ".toList ++ source ++ " ---\n".toList ++ item.content ++
    "\n--- END ".toList ++ source ++ " ---\n".toList

/-- The fixed preamble of the synthetic system message. -/
def contextHeader : List Char :=
  "You have the following context information:\n\n".toList

/-- `ContextService.generateContextMessages`: sorts a copy of the items by
relevance, and emits zero or one synthetic system message. -/
def generateContextMessages (s : ContextState) :
    List OpenRouterChatMessage × ContextState :=
  let sortedContext := sortDescRelevance s.context
  if sortedContext.length = 0 then ([], s)
  else
    let contextMessage : OpenRouterChatMessage :=
      { role := Role.system,
        content := contextHeader ++
          List.intercalate ['\n'] (sortedContext.map contextBlock) }
    ([contextMessage], s)

/-- Running a sequence of `addContext` calls, each described by the item it
will construct (the id and timestamp are the environment inputs of that
call). -/
def runAdds (specs : List ContextItem) (s : ContextState) : ContextState :=
  specs.foldl
    (fun st it =>
      (addContext it.id it.timestamp it.source it.content it.relevance
        it.path st).2)
    s

/-- The whitespace characters removed by `String.prototype.trim` (the ASCII
ones; the exotic Unicode space code points do not occur in this
development). -/
def jsWhitespace (c : Char) : Bool :=
  c == ' ' || c == '\t' || c == '\n' || c == '\r' ||
    c == '\x0b' || c == '\x0c'

/-- `String.prototype.trim`: strip leading and trailing whitespace. -/
def jsTrim (l : List Char) : List Char :=
  ((l.dropWhile jsWhitespace).reverse.dropWhile jsWhitespace).reverse

/-- `truncateWithEllipsis` from `src/src/types/openRouter.ts`. -/
def truncateWithEllipsis (text : List Char) (maxLength : Nat) : List Char :=
  if text.length ≤ maxLength then text
  else text.take maxLength ++ "...".toList

/-- `content.split('\n')[0]`: the characters before the first newline. -/
def firstLineOf (content : List Char) : List Char :=
  content.takeWhile (fun c => !(c == '\n'))

/-- `ChatHistoryService.generateTitleFromMessages` from
`src/src/types/openRouter.ts`. -/
def generateTitleFromMessages (messages : List OpenRouterChatMessage) :
    List Char :=
  match messages.find? (fun m => decide (m.role = Role.user)) with
  | none => "New Chat".toList
  | some firstUserMessage =>
    let firstLine := jsTrim (firstLineOf firstUserMessage.content)
    if firstLine.length = 0 then "New Chat".toList
    else truncateWithEllipsis firstLine 50

/-- `ChatHistoryItem` from `src/src/types/openRouter.ts`;
`lastInteractionAt` is the millisecond timestamp (`Date.getTime()`). -/
structure ChatHistoryItem where
  id : String
  title : List Char
  lastInteractionAt : Int
  messages : List OpenRouterChatMessage
deriving DecidableEq, Repr

/-- One entry of the archive directory: the filename, and the result of
reading and JSON-parsing it (`none` when the read or parse throws). -/
structure ChatFileEntry where
  filename : String
  parsed : Option ChatHistoryItem
deriving DecidableEq, Repr

/-- `filename.endsWith('.json')`, at character level. -/
def hasJsonExt (filename : String) : Bool :=
  ".json".toList.isSuffixOf filename.toList

/-- The records of the directory entries that end in `.json` and parse
successfully; corrupt ones map to `none` and are dropped. -/
def parsedChats (entries : List ChatFileEntry) : List ChatHistoryItem :=
  (entries.filter (fun e => hasJsonExt e.filename)).filterMap
    (fun e => e.parsed)

/-- `ChatHistoryService.getChats`: when the storage directory exists, list
the `.json` files, parse each one individually (skipping failures), and sort
most recent first. -/
def getChats (directoryExists : Bool) (entries : List ChatFileEntry) :
    List ChatHistoryItem :=
  if !directoryExists then []
  else
    (parsedChats entries).mergeSort
      (fun a b => decide (b.lastInteractionAt ≤ a.lastInteractionAt))

/-- A concrete context item: distinct id, strictly increasing timestamp,
scrambled relevance. -/
def sampleItem (i : Nat) : ContextItem :=
  { id := toString i, source := ContextSource.manual, content := [],
    relevance := ((i * 37) % 100 : Int), timestamp := (i : Int),
    path := none }

/-- The oldest of 21 concrete items. -/
def sampleHead : ContextItem := sampleItem 0

/-- The 20 newer concrete items, in strictly increasing timestamp order. -/
def sampleRest : List ContextItem := (List.range 20).map (fun i => sampleItem (i + 1))

/-- A first user line with leading whitespace and 60 further characters. -/
def c5Content : List Char := ' ' :: List.replicate 60 'x'

/-- A user message whose first line is 60 characters long with no
whitespace at the ends. -/
def c5wMsg : OpenRouterChatMessage :=
  { role := Role.user, content := List.replicate 60 'x' }

/-- A concrete chat record with the given numeric id and interaction time. -/
def chatRec (i : Nat) (t : Int) : ChatHistoryItem :=
  { id := toString i, title := [], lastInteractionAt := t, messages := [] }

/-- A concrete archive directory: three parseable `.json` records with
distinct times in scrambled order, one non-json file, one corrupt record. -/
def c7Entries : List ChatFileEntry :=
  [⟨"a.json", some (chatRec 1 5)⟩, ⟨"b.json", some (chatRec 2 9)⟩,
   ⟨"c.json", some (chatRec 3 7)⟩, ⟨"notes.txt", some (chatRec 4 11)⟩,
   ⟨"bad.json", none⟩]

/-! ### Helper lemmas -/

theorem relLe_trans : ∀ a b c : ContextItem,
    decide (b.relevance ≤ a.relevance) = true →
    decide (c.relevance ≤ b.relevance) = true →
    decide (c.relevance ≤ a.relevance) = true := by
  intro a b c h1 h2
  simp only [decide_eq_true_eq] at h1 h2 ⊢
  exact le_trans h2 h1

theorem relLe_total : ∀ a b : ContextItem,
    (decide (b.relevance ≤ a.relevance) ||
      decide (a.relevance ≤ b.relevance)) = true := by
  intro a b
  rcases le_total b.relevance a.relevance with h | h <;> simp [h]

theorem tsLe_trans : ∀ a b c : ContextItem,
    decide (a.timestamp ≤ b.timestamp) = true →
    decide (b.timestamp ≤ c.timestamp) = true →
    decide (a.timestamp ≤ c.timestamp) = true := by
  intro a b c h1 h2
  simp only [decide_eq_true_eq] at h1 h2 ⊢
  exact le_trans h1 h2

theorem tsLe_total : ∀ a b : ContextItem,
    (decide (a.timestamp ≤ b.timestamp) ||
      decide (b.timestamp ≤ a.timestamp)) = true := by
  intro a b
  rcases le_total a.timestamp b.timestamp with h | h <;> simp [h]

theorem timeLe_trans : ∀ a b c : ChatHistoryItem,
    decide (b.lastInteractionAt ≤ a.lastInteractionAt) = true →
    decide (c.lastInteractionAt ≤ b.lastInteractionAt) = true →
    decide (c.lastInteractionAt ≤ a.lastInteractionAt) = true := by
  intro a b c h1 h2
  simp only [decide_eq_true_eq] at h1 h2 ⊢
  exact le_trans h2 h1

theorem timeLe_total : ∀ a b : ChatHistoryItem,
    (decide (b.lastInteractionAt ≤ a.lastInteractionAt) ||
      decide (a.lastInteractionAt ≤ b.lastInteractionAt)) = true := by
  intro a b
  rcases le_total b.lastInteractionAt a.lastInteractionAt with h | h <;> simp [h]

/-- A stable sort does not move elements past each other inside one
equivalence class of the comparator: filtering by a class that is uniformly
`le`-related commutes with `mergeSort`. -/
theorem filter_mergeSort_stable {α : Type} (le : α → α → Bool)
    (trans : ∀ a b c : α, le a b → le b c → le a c)
    (total : ∀ a b : α, le a b || le b a)
    (p : α → Bool) (hp : ∀ a b : α, p a = true → p b = true → le a b = true)
    (l : List α) :
    (l.mergeSort le).filter p = l.filter p := by
  have hsub : List.Sublist (l.filter p) l := List.filter_sublist l
  have hpair : (l.filter p).Pairwise (fun a b => le a b = true) := by
    apply List.pairwise_of_forall_mem_list
    intro a ha b hb
    exact hp a b (List.of_mem_filter ha) (List.of_mem_filter hb)
  have h1 : List.Sublist (l.filter p) (l.mergeSort le) :=
    List.sublist_mergeSort trans total hpair hsub
  have h2 : List.Sublist (l.filter p) ((l.mergeSort le).filter p) := by
    have h3 := h1.filter p
    rwa [List.filter_eq_self.mpr (fun a ha => List.of_mem_filter ha)] at h3
  have hlen : (l.filter p).length = ((l.mergeSort le).filter p).length := by
    rw [← List.countP_eq_length_filter, ← List.countP_eq_length_filter]
    exact ((List.mergeSort_perm l le).countP_eq p).symm
  exact (h2.eq_of_length hlen).symm

theorem length_pruneContextIfNeeded (l : List ContextItem) :
    (pruneContextIfNeeded l).length = if l.length > 20 then 20 else l.length := by
  unfold pruneContextIfNeeded
  split
  · next h =>
    simp only [sortDescRelevance, sortAscTimestamp, List.length_mergeSort,
      List.length_drop]
    omega
  · rfl

theorem pruneContextIfNeeded_of_le {l : List ContextItem}
    (h : l.length ≤ 20) : pruneContextIfNeeded l = l := by
  unfold pruneContextIfNeeded
  rw [if_neg]
  omega

theorem addContext_context (id : String) (ts : Int) (src : ContextSource)
    (content : List Char) (rel : Int) (path : Option String)
    (s : ContextState) :
    ((addContext id ts src content rel path s).2).context =
      pruneContextIfNeeded (s.context ++
        [{ id := id, source := src, content := content, relevance := rel,
           timestamp := ts, path := path }]) := rfl

theorem addContext_length_le (id : String) (ts : Int) (src : ContextSource)
    (content : List Char) (rel : Int) (path : Option String)
    (s : ContextState) :
    ((addContext id ts src content rel path s).2).context.length ≤ 20 := by
  rw [addContext_context, length_pruneContextIfNeeded]
  split <;> omega

theorem runAdds_cons (it : ContextItem) (specs : List ContextItem)
    (s : ContextState) :
    runAdds (it :: specs) s =
      runAdds specs
        (addContext it.id it.timestamp it.source it.content it.relevance
          it.path s).2 := rfl

theorem addContext_context_eta (it : ContextItem) (s : ContextState) :
    ((addContext it.id it.timestamp it.source it.content it.relevance
        it.path s).2).context =
      pruneContextIfNeeded (s.context ++ [it]) := rfl

/-- As long as the running count stays at or below 20, `addContext` never
prunes, so a run of adds is a plain append. -/
theorem runAdds_no_prune :
    ∀ (specs : List ContextItem) (s : ContextState),
      s.context.length + specs.length ≤ 20 →
      (runAdds specs s).context = s.context ++ specs
  | [], s, _ => by simp [runAdds]
  | it :: specs, s, h => by
    have hctx : ((addContext it.id it.timestamp it.source it.content
        it.relevance it.path s).2).context = s.context ++ [it] := by
      rw [addContext_context_eta]
      exact pruneContextIfNeeded_of_le
        (by simp only [List.length_append, List.length_cons,
          List.length_nil]; simp only [List.length_cons] at h; omega)
    rw [runAdds_cons, runAdds_no_prune specs _
      (by rw [hctx]; simp only [List.length_append, List.length_cons,
        List.length_nil]; simp only [List.length_cons] at h; omega), hctx]
    simp

/-- Twenty-one adds from an empty store: the first twenty appends go through
unpruned; the last one pushes to 21 items, sorts by timestamp (a no-op when
insertion order follows the timestamps), drops the oldest item, and re-sorts
the survivors by relevance. -/
theorem runAdds_cons21 (it0 : ContextItem) (rest : List ContextItem)
    (hlen : rest.length = 20)
    (hts : (it0 :: rest).Pairwise (fun a b => a.timestamp < b.timestamp)) :
    (runAdds (it0 :: rest) (newContextService none)).context =
      sortDescRelevance rest := by
  have hne : rest ≠ [] := by intro h; rw [h] at hlen; simp at hlen
  have hdecomp : rest.dropLast ++ [rest.getLast hne] = rest :=
    List.dropLast_append_getLast hne
  have hfrontlen : (it0 :: rest.dropLast).length = 20 := by
    simp [List.length_dropLast, hlen]
  have hfront : (runAdds (it0 :: rest.dropLast)
      (newContextService none)).context = it0 :: rest.dropLast := by
    have h := runAdds_no_prune (it0 :: rest.dropLast) (newContextService none)
      (by simp [newContextService, loadContext, hfrontlen])
    simpa [newContextService, loadContext] using h
  have hsplit : runAdds (it0 :: rest) (newContextService none) =
      runAdds [rest.getLast hne]
        (runAdds (it0 :: rest.dropLast) (newContextService none)) := by
    have : it0 :: rest = (it0 :: rest.dropLast) ++ [rest.getLast hne] := by
      rw [List.cons_append, hdecomp]
    rw [this]
    simp [runAdds, List.foldl_append]
  rw [hsplit, runAdds, List.foldl_cons, List.foldl_nil]
  rw [addContext_context_eta, hfront]
  have hback : (it0 :: rest.dropLast) ++ [rest.getLast hne] = it0 :: rest := by
    rw [List.cons_append, hdecomp]
  rw [hback]
  have h21 : (it0 :: rest).length = 21 := by simp [hlen]
  unfold pruneContextIfNeeded
  rw [if_pos (by omega)]
  have hsortts : sortAscTimestamp (it0 :: rest) = it0 :: rest := by
    unfold sortAscTimestamp
    exact List.mergeSort_of_sorted
      (hts.imp (fun h => decide_eq_true (le_of_lt h)))
  rw [hsortts]
  show sortDescRelevance
    (List.drop ((it0 :: rest).length - 20) (it0 :: rest)) =
    sortDescRelevance rest
  rw [h21]
  rfl

theorem removeContext_context (id : String) (s : ContextState) :
    ((removeContext id s).2).context =
      s.context.filter (fun item => decide (item.id ≠ id)) := by
  simp only [removeContext, saveContext]
  split <;> rfl

theorem generateContextMessages_snd (s : ContextState) :
    (generateContextMessages s).2 = s := by
  by_cases hc : (sortDescRelevance s.context).length = 0 <;>
    simp [generateContextMessages, hc]

/-! ### Claims -/

/-- C1.  Capacity invariant: each of the add operations leaves at most 20
items in the store, unconditionally on the starting state (so after every add
of any sequence the count is at most 20); the selection add either adds (then
at most 20) or is a no-op (then the count is unchanged), and remove and clear
never increase the count. -/
theorem capacity_invariant (s : ContextState) (id : String) (ts rel : Int)
    (content : List Char) (fsPath : String) (ed : TextEditor)
    (msgs : List OpenRouterChatMessage) :
    (getContext (addContextFromFile id ts content fsPath rel s).2).length ≤ 20 ∧
    (getContext (addContextFromMessages id ts msgs rel s).2).length ≤ 20 ∧
    (getContext (addManualContext id ts content rel s).2).length ≤ 20 ∧
    (getContext (addContextFromSelection id ts ed rel s).2).length ≤
      max (getContext s).length 20 ∧
    (getContext (removeContext id s).2).length ≤ (getContext s).length ∧
    (getContext (clearContext s)).length = 0 := by
  refine ⟨addContext_length_le .., addContext_length_le ..,
    addContext_length_le .., ?_, ?_, rfl⟩
  · unfold addContextFromSelection
    match h : ed.selection with
    | none => simp [getContext]
    | some sel =>
      by_cases he : sel.isEmpty
      · simp [he, getContext]
      · simp only [he, if_false]
        exact le_max_of_le_right (addContext_length_le ..)
  · show ((removeContext id s).2).context.length ≤ s.context.length
    rw [removeContext_context]
    exact List.length_filter_le ..

/-- C10.  Serialization is read-only: `generateContextMessages` returns the
state it was given, so `getContext` afterwards is unchanged. -/
theorem generateContextMessages_read_only (s : ContextState) :
    (generateContextMessages s).2 = s ∧
    getContext (generateContextMessages s).2 = getContext s :=
  ⟨generateContextMessages_snd s, by rw [generateContextMessages_snd s]⟩

/-- C6.  Persistence round-trip: saving the store and constructing a fresh
service from the saved slot restores the same item list (hence the same
items, field for field). -/
theorem save_load_round_trip (s : ContextState) :
    getContext (newContextService (saveContext s).globalState) = getContext s ∧
    ∀ it : ContextItem,
      it ∈ getContext (newContextService (saveContext s).globalState) ↔
        it ∈ getContext s :=
  ⟨rfl, fun _ => Iff.rfl⟩

/-- C9.  Empty-selection no-op: an absent or empty selection makes
`addContextFromSelection` return `null` and the exact input state (nothing
added, nothing pruned, nothing persisted). -/
theorem empty_selection_no_op (id : String) (ts rel : Int) (ed : TextEditor)
    (s : ContextState) (h : ed.selection = none ∨ ed.selection = some []) :
    addContextFromSelection id ts ed rel s = (none, s) := by
  rcases h with h | h <;> simp [addContextFromSelection, h]

/-- C2.  Eviction-by-age: after adding 21 items with strictly increasing
timestamps (and fresh ids) to an empty store, the oldest item is gone, every
one of the other 20 is still present by id, and the count is 20 — the
relevance scores play no part. -/
theorem eviction_by_age (it0 : ContextItem) (rest : List ContextItem)
    (hlen : rest.length = 20)
    (hts : (it0 :: rest).Pairwise (fun a b => a.timestamp < b.timestamp))
    (hids : ((it0 :: rest).map (fun it => it.id)).Nodup) :
    it0.id ∉ (getContext (runAdds (it0 :: rest)
        (newContextService none))).map (fun it => it.id) ∧
    (∀ it ∈ rest, it.id ∈ (getContext (runAdds (it0 :: rest)
        (newContextService none))).map (fun it => it.id)) ∧
    (getContext (runAdds (it0 :: rest)
        (newContextService none))).length = 20 := by
  have hctx : getContext (runAdds (it0 :: rest) (newContextService none)) =
      sortDescRelevance rest := runAdds_cons21 it0 rest hlen hts
  have hperm : List.Perm (sortDescRelevance rest) rest :=
    List.mergeSort_perm rest _
  have hmap : List.Perm ((sortDescRelevance rest).map (fun it => it.id))
      (rest.map (fun it => it.id)) := hperm.map _
  refine ⟨?_, ?_, ?_⟩
  · rw [hctx]
    intro hmem
    have h0 : it0.id ∈ rest.map (fun it => it.id) := hmap.mem_iff.mp hmem
    simp only [List.map_cons, List.nodup_cons] at hids
    exact hids.1 h0
  · intro it hit
    rw [hctx]
    exact hmap.mem_iff.mpr (List.mem_map_of_mem _ hit)
  · rw [hctx]
    rw [hperm.length_eq, hlen]

/-- Witness for C2 on 21 concrete items with scrambled relevance. -/
theorem eviction_by_age_witness :
    (sampleRest.length = 20 ∧
      (sampleHead :: sampleRest).Pairwise
        (fun a b => a.timestamp < b.timestamp) ∧
      ((sampleHead :: sampleRest).map (fun it => it.id)).Nodup) ∧
    (sampleHead.id ∉ (getContext (runAdds (sampleHead :: sampleRest)
        (newContextService none))).map (fun it => it.id) ∧
      (∀ it ∈ sampleRest, it.id ∈ (getContext (runAdds
        (sampleHead :: sampleRest)
        (newContextService none))).map (fun it => it.id)) ∧
      (getContext (runAdds (sampleHead :: sampleRest)
        (newContextService none))).length = 20) :=
  ⟨⟨by decide, by decide, by decide⟩,
    eviction_by_age sampleHead sampleRest (by decide) (by decide) (by decide)⟩

/-- C3.  Presentation order: the serializer emits no message exactly on the
empty store; its single message lays out the item blocks in the
relevance-descending-sorted order of the items, that order is non-increasing
in relevance, and within one relevance value it coincides with the store
order (stability). -/
theorem presentation_order (s : ContextState) :
    ((generateContextMessages s).1 = [] ↔ s.context = []) ∧
    (generateContextMessages s).1 =
      (if s.context.length = 0 then []
       else [{ role := Role.system,
               content := contextHeader ++
                 List.intercalate ['\n']
                   ((sortDescRelevance s.context).map contextBlock) }]) ∧
    (sortDescRelevance s.context).Pairwise
      (fun a b => b.relevance ≤ a.relevance) ∧
    (∀ r : Int,
      (sortDescRelevance s.context).filter
          (fun it => decide (it.relevance = r)) =
        s.context.filter (fun it => decide (it.relevance = r))) := by
  have hlen : (sortDescRelevance s.context).length = s.context.length := by
    simp [sortDescRelevance]
  refine ⟨?_, ?_, ?_, ?_⟩
  · by_cases hc : s.context = []
    · simp [generateContextMessages, hc, sortDescRelevance]
    · have h1 : ¬ (sortDescRelevance s.context).length = 0 := by
        rw [hlen]
        simpa [List.length_eq_zero] using hc
      simp [generateContextMessages, h1, hc]
  · by_cases hc : (sortDescRelevance s.context).length = 0 <;>
      rw [hlen] at hc <;>
      simp [generateContextMessages, hlen, hc]
  · exact (List.sorted_mergeSort relLe_trans relLe_total s.context).imp
      (fun h => of_decide_eq_true h)
  · intro r
    exact filter_mergeSort_stable _ relLe_trans relLe_total
      (fun it => decide (it.relevance = r))
      (fun a b ha hb => by
        simp only [decide_eq_true_eq] at ha hb ⊢
        rw [ha, hb])
      s.context

/-- C4 counterexample: after a prune the returned list is no longer in
insertion order — the 20 surviving items are all present, but reordered by
relevance. -/
theorem list_insertion_order_counterexample :
    getContext (runAdds (sampleHead :: sampleRest) (newContextService none)) ≠
      sampleRest ∧
    ∀ it ∈ sampleRest,
      it ∈ getContext (runAdds (sampleHead :: sampleRest)
        (newContextService none)) := by
  have hctx : getContext (runAdds (sampleHead :: sampleRest)
      (newContextService none)) = sortDescRelevance sampleRest :=
    runAdds_cons21 sampleHead sampleRest (by decide) (by decide)
  constructor
  · rw [hctx]
    intro h
    have hsorted := List.sorted_mergeSort relLe_trans relLe_total sampleRest
    rw [show sampleRest.mergeSort
        (fun a b => decide (b.relevance ≤ a.relevance)) =
        sortDescRelevance sampleRest from rfl, h] at hsorted
    exact absurd hsorted (by decide)
  · intro it hit
    rw [hctx]
    exact List.mem_mergeSort.mpr hit

/-- C4 amended: `getContext` returns the store in its internal order, which
is insertion order as long as no prune has run (at most 20 adds from an
empty store). -/
theorem list_insertion_order (specs : List ContextItem)
    (h : specs.length ≤ 20) :
    getContext (runAdds specs (newContextService none)) = specs := by
  have h0 := runAdds_no_prune specs (newContextService none)
    (by simpa [newContextService, loadContext] using h)
  simpa [getContext, newContextService, loadContext] using h0

/-- Witness for the amended C4 on a single add. -/
theorem list_insertion_order_witness :
    [sampleHead].length ≤ 20 ∧
    getContext (runAdds [sampleHead] (newContextService none)) =
      [sampleHead] :=
  ⟨by decide, list_insertion_order [sampleHead] (by decide)⟩

/-- Witness for C9 at a concrete empty selection. -/
theorem empty_selection_no_op_witness :
    ((⟨some [], "file.ts"⟩ : TextEditor).selection = none ∨
      (⟨some [], "file.ts"⟩ : TextEditor).selection = some []) ∧
    addContextFromSelection "id0" 0 ⟨some [], "file.ts"⟩ 90
      (newContextService none) = (none, newContextService none) :=
  ⟨Or.inr rfl,
    empty_selection_no_op "id0" 0 90 ⟨some [], "file.ts"⟩
      (newContextService none) (Or.inr rfl)⟩

/-- C5 counterexample: the code trims the first line before cutting, so a
first line with leading whitespace and more than 50 characters does not
yield the first 50 characters of the untrimmed line. -/
theorem title_truncation_counterexample :
    (firstLineOf c5Content).length > 50 ∧
    generateTitleFromMessages [{ role := Role.user, content := c5Content }] ≠
      (firstLineOf c5Content).take 50 ++ "...".toList := by
  constructor
  · decide
  · decide

/-- C5 amended: the title is computed from the trimmed first line of the
first user message: over 50 characters it is the first 50 of the trimmed
line plus an ellipsis (53 characters in all), at 50 or fewer nonzero
characters it is the trimmed line unchanged, and when trimming leaves
nothing the fallback label is produced. -/
theorem title_truncation (messages : List OpenRouterChatMessage)
    (m : OpenRouterChatMessage)
    (hfind : messages.find? (fun m0 => decide (m0.role = Role.user)) =
      some m) :
    ((jsTrim (firstLineOf m.content)).length > 50 →
      generateTitleFromMessages messages =
        (jsTrim (firstLineOf m.content)).take 50 ++ "...".toList ∧
      (generateTitleFromMessages messages).length = 53) ∧
    (0 < (jsTrim (firstLineOf m.content)).length →
      (jsTrim (firstLineOf m.content)).length ≤ 50 →
      generateTitleFromMessages messages = jsTrim (firstLineOf m.content)) ∧
    ((jsTrim (firstLineOf m.content)).length = 0 →
      generateTitleFromMessages messages = "New Chat".toList) := by
  have hgen : generateTitleFromMessages messages =
      (if (jsTrim (firstLineOf m.content)).length = 0 then "New Chat".toList
       else truncateWithEllipsis (jsTrim (firstLineOf m.content)) 50) := by
    unfold generateTitleFromMessages
    rw [hfind]
  refine ⟨?_, ?_, ?_⟩
  · intro hlong
    have hne : ¬ (jsTrim (firstLineOf m.content)).length = 0 := by omega
    have hnle : ¬ (jsTrim (firstLineOf m.content)).length ≤ 50 := by omega
    rw [hgen, if_neg hne]
    unfold truncateWithEllipsis
    rw [if_neg hnle]
    refine ⟨rfl, ?_⟩
    have h3 : ("...".toList).length = 3 := rfl
    rw [List.length_append, List.length_take, h3]
    omega
  · intro hpos hle
    have hne : ¬ (jsTrim (firstLineOf m.content)).length = 0 := by omega
    rw [hgen, if_neg hne]
    unfold truncateWithEllipsis
    rw [if_pos hle]
  · intro hz
    rw [hgen, if_pos hz]

/-- Witness for the amended C5 on a 60-character first user line. -/
theorem title_truncation_witness :
    ([c5wMsg].find? (fun m0 => decide (m0.role = Role.user)) = some c5wMsg) ∧
    (jsTrim (firstLineOf c5wMsg.content)).length > 50 ∧
    generateTitleFromMessages [c5wMsg] =
      (jsTrim (firstLineOf c5wMsg.content)).take 50 ++ "...".toList ∧
    (generateTitleFromMessages [c5wMsg]).length = 53 :=
  ⟨by decide, by decide,
    ((title_truncation [c5wMsg] c5wMsg (by decide)).1 (by decide)).1,
    ((title_truncation [c5wMsg] c5wMsg (by decide)).1 (by decide)).2⟩

/-- C7.  History ordering: whatever the enumeration order of the backing
files, when the parseable records carry pairwise distinct interaction times
`getChats` returns exactly those records in strictly descending time
order. -/
theorem history_ordering (entries : List ChatFileEntry)
    (hnd : ((parsedChats entries).map
      (fun c => c.lastInteractionAt)).Nodup) :
    (getChats true entries).Pairwise
      (fun a b => b.lastInteractionAt < a.lastInteractionAt) ∧
    List.Perm (getChats true entries) (parsedChats entries) := by
  have hget : getChats true entries = (parsedChats entries).mergeSort
      (fun a b => decide (b.lastInteractionAt ≤ a.lastInteractionAt)) := by
    simp [getChats]
  have hperm : List.Perm (getChats true entries) (parsedChats entries) := by
    rw [hget]
    exact List.mergeSort_perm ..
  refine ⟨?_, hperm⟩
  have hsorted : (getChats true entries).Pairwise
      (fun a b => b.lastInteractionAt ≤ a.lastInteractionAt) := by
    rw [hget]
    exact (List.sorted_mergeSort timeLe_trans timeLe_total
      (parsedChats entries)).imp (fun h => of_decide_eq_true h)
  have hndout : ((getChats true entries).map
      (fun c => c.lastInteractionAt)).Nodup :=
    ((hperm.map (fun c => c.lastInteractionAt)).nodup_iff).mpr hnd
  have hne : (getChats true entries).Pairwise
      (fun a b => a.lastInteractionAt ≠ b.lastInteractionAt) :=
    List.pairwise_map.mp hndout
  exact (hsorted.and hne).imp
    (fun h => lt_of_le_of_ne h.1 (Ne.symm h.2))

/-- Witness for C7 on three parseable records with scrambled distinct
times, one non-json file and one corrupt record. -/
theorem history_ordering_witness :
    ((parsedChats c7Entries).map (fun c => c.lastInteractionAt)).Nodup ∧
    ((getChats true c7Entries).Pairwise
      (fun a b => b.lastInteractionAt < a.lastInteractionAt) ∧
    List.Perm (getChats true c7Entries) (parsedChats c7Entries)) :=
  ⟨by decide, history_ordering c7Entries (by decide)⟩

/-- C8.  Corrupt record skip: `getChats` returns exactly (a permutation of)
the records that parse, so each corrupt record is skipped individually and
the list operation always returns a value. -/
theorem corrupt_record_skip (entries : List ChatFileEntry) :
    List.Perm (getChats true entries) (parsedChats entries) ∧
    ∀ c : ChatHistoryItem,
      c ∈ getChats true entries ↔ c ∈ parsedChats entries := by
  have hget : getChats true entries = (parsedChats entries).mergeSort
      (fun a b => decide (b.lastInteractionAt ≤ a.lastInteractionAt)) := by
    simp [getChats]
  have hperm : List.Perm (getChats true entries) (parsedChats entries) := by
    rw [hget]
    exact List.mergeSort_perm ..
  exact ⟨hperm, fun c => hperm.mem_iff⟩
